import Mathlib

/-
Verification development for the agent-chat-cli streaming reduction core
(src/agent_chat_cli/a2a_client.py).

Shallow embedding conventions:
  * Python `str` is modelled as `List Char` (named `Str`); Python string
    length, slicing and concatenation coincide with list operations.
  * Python `str.strip()` is modelled with the ASCII whitespace set
    (space, tab, newline, carriage return, vertical tab, form feed);
    the wider Unicode whitespace classes are not exercised by the code.
  * `json.loads` is embedded as a recursive-descent parser `jsonLoads`
    producing the `Json` inductive; numbers keep their lexeme, which is
    all the client code observes (truthiness only).
  * `ast.literal_eval` is embedded as `pyLiteralEval` producing `PyVal`
    (None/bool/int/float lexeme/str/list/tuple/dict; bytes, sets,
    complex numbers and numeric underscores are not modelled - the
    execution-plan payloads never carry them).
  * Fallible Python code (paths that can raise out of the function) is
    embedded with `Except Unit`; fuel arguments are set to
    `length + 1`, which strictly bounds the recursion depth because
    every recursive call consumes at least one character.
-/

/-! ## Basic string machinery (Python `str` as `List Char`) -/

abbrev Str := List Char

def S (s : String) : Str := s.data

def dquoteChar : Char := Char.ofNat 34

def bslashChar : Char := Char.ofNat 92

def lbraceChar : Char := Char.ofNat 123

def rbraceChar : Char := Char.ofNat 125

/-- ASCII approximation of the whitespace set recognised by Python `str.strip`. -/
def pyWsChar (c : Char) : Bool :=
  c == ' ' || c == '\t' || c == '\n' || c == '\x0d' || c == '\x0b' || c == '\x0c'

/-- Python `str.lstrip()`. -/
def lstrip (s : Str) : Str := s.dropWhile pyWsChar

/-- Python `str.rstrip()`. -/
def rstrip (s : Str) : Str := (s.reverse.dropWhile pyWsChar).reverse

/-- Python `str.strip()`. -/
def strip (s : Str) : Str := rstrip (lstrip s)

/-- Python `s.split(pat, 1)` when `pat` occurs in `s`: the text before the
first occurrence and the text after it. `none` when `pat` does not occur. -/
def splitOnce (pat : Str) : Str → Option (Str × Str)
  | [] => if pat.isPrefixOf ([] : Str) then some ([], []) else none
  | c :: rest =>
    if pat.isPrefixOf (c :: rest) then some ([], (c :: rest).drop pat.length)
    else
      match splitOnce pat rest with
      | some (b, a) => some (c :: b, a)
      | none => none

/-- Python `pat in s` (substring test). -/
def containsSubstr (pat s : Str) : Bool := (splitOnce pat s).isSome

/-- Python `s.replace(pat, repl)` (all occurrences), fuelled; every
iteration consumes at least `pat.length ≥ 1` characters. -/
def replaceAllF (pat repl : Str) : Nat → Str → Str
  | 0, s => s
  | fuel + 1, s =>
    match splitOnce pat s with
    | none => s
    | some (b, a) => b ++ repl ++ replaceAllF pat repl fuel a

def replaceAll (pat repl s : Str) : Str := replaceAllF pat repl (s.length + 1) s

/-- Python `sep.join(parts)`. -/
def joinWith (sep : Str) : List Str → Str
  | [] => []
  | [x] => x
  | x :: y :: rest => x ++ sep ++ joinWith sep (y :: rest)

/-- Python `s.split(newline)`. -/
def splitOnNl : Str → List Str
  | [] => [[]]
  | c :: rest =>
    if c = '\n' then [] :: splitOnNl rest
    else
      match splitOnNl rest with
      | h :: t => (c :: h) :: t
      | [] => [c :: ([] : Str)]

/-- Python `xs[-n:]`. -/
def takeRight (n : Nat) (l : List Str) : List Str := l.drop (l.length - n)

/-- Python `list.insert(i, x)`. -/
def insertAt (l : List Str) (i : Nat) (x : Str) : List Str :=
  l.take i ++ [x] ++ l.drop i

/-- Python `s.find(c)`. -/
def findCharIdx (c : Char) (s : Str) : Option Nat := s.findIdx? (· == c)

/-- Python `s.rfind(c)`. -/
def rfindCharIdx (c : Char) (s : Str) : Option Nat :=
  match s.reverse.findIdx? (· == c) with
  | some i => some (s.length - 1 - i)
  | none => none

/-- ASCII approximation of Python `str.lower()`. -/
def toLowerStr (s : Str) : Str := s.map Char.toLower

def natToStr (n : Nat) : Str := Nat.toDigits 10 n

def intToStr (i : Int) : Str :=
  if i < 0 then '-' :: natToStr i.natAbs else natToStr i.natAbs

/-- Number of (possibly overlapping) occurrences of `pat` in `s`. -/
def countOcc (pat : Str) : Str → Nat
  | [] => 0
  | c :: rest => (if pat.isPrefixOf (c :: rest) then 1 else 0) + countOcc pat rest

/-! ## JSON values and `json.loads` -/

inductive Json where
  | null : Json
  | jbool : Bool → Json
  | jnum : Str → Json
  | jstr : Str → Json
  | jarr : List Json → Json
  | jobj : List (Str × Json) → Json

/-- A JSON number lexeme denotes zero iff its mantissa consists of zeros
(`0`, `-0.000`, `0e10`, ...); `NaN`/`Infinity` lexemes are never zero. -/
def jsonNumIsZero (lex : Str) : Bool :=
  let m := (lex.dropWhile (· == '-')).takeWhile (fun c => c ≠ 'e' ∧ c ≠ 'E')
  m ≠ [] && m.all (fun c => c = '0' ∨ c = '.')

/-- Python truthiness of a decoded JSON value. -/
def jsonTruthy : Json → Bool
  | .null => false
  | .jbool b => b
  | .jnum lex => ! jsonNumIsZero lex
  | .jstr s => ! s.isEmpty
  | .jarr xs => ! xs.isEmpty
  | .jobj kvs => ! kvs.isEmpty

/-- Python `dict.get` on a decoded JSON object; `json.loads` keeps the
last binding for duplicate keys. -/
def jsonGet (kvs : List (Str × Json)) (k : Str) : Option Json :=
  match kvs.reverse.find? (fun p => p.1 == k) with
  | some p => some p.2
  | none => none

def jsonWsChar (c : Char) : Bool :=
  c == ' ' || c == '\t' || c == '\n' || c == '\x0d'

def jsWs (s : Str) : Str := s.dropWhile jsonWsChar

def hexVal (c : Char) : Option Nat :=
  if '0' ≤ c ∧ c ≤ '9' then some (c.toNat - '0'.toNat)
  else if 'a' ≤ c ∧ c ≤ 'f' then some (c.toNat - 'a'.toNat + 10)
  else if 'A' ≤ c ∧ c ≤ 'F' then some (c.toNat - 'A'.toNat + 10)
  else none

/-- Body of a JSON string literal after the opening quote; returns the
decoded characters and the rest of the input past the closing quote.
Lone `\uXXXX` surrogate halves are not modelled (they decode to `\0`). -/
def jsonStringGo : Str → Option (Str × Str)
  | [] => none
  | c :: rest =>
    if c = dquoteChar then some ([], rest)
    else if c = bslashChar then
      match rest with
      | [] => none
      | e :: rest2 =>
        if e = 'u' then
          match rest2 with
          | a :: b :: c2 :: d :: rest3 =>
            match hexVal a, hexVal b, hexVal c2, hexVal d with
            | some ha, some hb, some hc, some hd =>
              match jsonStringGo rest3 with
              | some (tail, r) =>
                some (Char.ofNat (((ha * 16 + hb) * 16 + hc) * 16 + hd) :: tail, r)
              | none => none
            | _, _, _, _ => none
          | _ => none
        else
          let dec : Option Char :=
            if e = dquoteChar then some dquoteChar
            else if e = bslashChar then some bslashChar
            else if e = '/' then some '/'
            else if e = 'b' then some '\x08'
            else if e = 'f' then some '\x0c'
            else if e = 'n' then some '\n'
            else if e = 'r' then some '\x0d'
            else if e = 't' then some '\t'
            else none
          match dec with
          | some d =>
            match jsonStringGo rest2 with
            | some (tail, r) => some (d :: tail, r)
            | none => none
          | none => none
    else
      match jsonStringGo rest with
      | some (tail, r) => some (c :: tail, r)
      | none => none

def isDigitChar (c : Char) : Bool := '0' ≤ c && c ≤ '9'

/-- Lexes a JSON number (strict RFC grammar as enforced by `json.loads`:
no leading zeros, mandatory digits around the dot). -/
def jsonNumberLex (s : Str) : Option (Str × Str) :=
  let (sign, r1) :=
    match s with
    | '-' :: r => (['-'], r)
    | _ => (([] : Str), s)
  let intPart := r1.takeWhile isDigitChar
  let r2 := r1.drop intPart.length
  if intPart = [] then none
  else if intPart.length > 1 ∧ intPart.headD '0' = '0' then none
  else
    let (frac, r3) :=
      match r2 with
      | '.' :: r =>
        let ds := r.takeWhile isDigitChar
        if ds = [] then (none, r2) else (some ('.' :: ds), r.drop ds.length)
      | _ => (none, r2)
    match frac, r2 with
    | none, '.' :: _ => none
    | _, _ =>
      let fracStr := frac.getD []
      let (expPart, r4) :=
        match r3 with
        | e :: r =>
          if e = 'e' ∨ e = 'E' then
            let (es, r') :=
              match r with
              | '+' :: rr => ([e, '+'], rr)
              | '-' :: rr => ([e, '-'], rr)
              | _ => ([e], r)
            let ds := r'.takeWhile isDigitChar
            if ds = [] then (none, r3) else (some (es ++ ds), r'.drop ds.length)
          else (none, r3)
        | [] => (none, r3)
      match expPart, r3 with
      | none, e :: _ =>
        if e = 'e' ∨ e = 'E' then none
        else some (sign ++ intPart ++ fracStr, r3)
      | none, [] => some (sign ++ intPart ++ fracStr, r3)
      | some ep, _ => some (sign ++ intPart ++ fracStr ++ ep, r4)

mutual

/-- One JSON value at the head of the input (whitespace already skipped). -/
def jsonValueF : Nat → Str → Option (Json × Str)
  | 0, _ => none
  | fuel + 1, s =>
    match s with
    | [] => none
    | c :: rest =>
      if c = dquoteChar then
        match jsonStringGo rest with
        | some (str, r) => some (.jstr str, r)
        | none => none
      else if c = lbraceChar then
        let r1 := jsWs rest
        match r1 with
        | c2 :: r2 =>
          if c2 = rbraceChar then some (.jobj [], r2)
          else
            match jsonMembersF fuel [] r1 with
            | some (kvs, r) => some (.jobj kvs, r)
            | none => none
        | [] => none
      else if c = '[' then
        let r1 := jsWs rest
        match r1 with
        | c2 :: r2 =>
          if c2 = ']' then some (.jarr [], r2)
          else
            match jsonElemsF fuel [] r1 with
            | some (xs, r) => some (.jarr xs, r)
            | none => none
        | [] => none
      else if (S ("true")).isPrefixOf s then some (.jbool true, s.drop 4)
      else if (S ("false")).isPrefixOf s then some (.jbool false, s.drop 5)
      else if (S ("null")).isPrefixOf s then some (.null, s.drop 4)
      else if (S ("NaN")).isPrefixOf s then some (.jnum (S ("NaN")), s.drop 3)
      else if (S ("Infinity")).isPrefixOf s then some (.jnum (S ("Infinity")), s.drop 8)
      else if c = '-' ∧ (S ("Infinity")).isPrefixOf rest then
        some (.jnum (S ("-Infinity")), rest.drop 8)
      else
        match jsonNumberLex s with
        | some (lex, r) => some (.jnum lex, r)
        | none => none

/-- Members of a JSON object, positioned at a key (input not `}`-headed). -/
def jsonMembersF : Nat → List (Str × Json) → Str → Option (List (Str × Json) × Str)
  | 0, _, _ => none
  | fuel + 1, acc, s =>
    match jsWs s with
    | c :: rest =>
      if c = dquoteChar then
        match jsonStringGo rest with
        | some (key, r1) =>
          match jsWs r1 with
          | ':' :: r3 =>
            match jsonValueF fuel (jsWs r3) with
            | some (v, r4) =>
              match jsWs r4 with
              | ',' :: r6 => jsonMembersF fuel (acc ++ [(key, v)]) r6
              | c7 :: r7 =>
                if c7 = rbraceChar then some (acc ++ [(key, v)], r7) else none
              | [] => none
            | none => none
          | _ => none
        | none => none
      else none
    | [] => none

/-- Elements of a JSON array, positioned at a value (input not `]`-headed). -/
def jsonElemsF : Nat → List Json → Str → Option (List Json × Str)
  | 0, _, _ => none
  | fuel + 1, acc, s =>
    match jsonValueF fuel (jsWs s) with
    | some (v, r1) =>
      match jsWs r1 with
      | ',' :: r2 => jsonElemsF fuel (acc ++ [v]) r2
      | ']' :: r2 => some (acc ++ [v], r2)
      | _ => none
    | none => none

end

/-- `json.loads`: parses the whole input (surrounding whitespace allowed),
`none` models `JSONDecodeError`. -/
def jsonLoads (s : Str) : Option Json :=
  match jsonValueF (s.length + 1) (jsWs s) with
  | some (v, r) => if jsWs r = [] then some v else none
  | none => none

/-! ## Text Sanitizer (`sanitize_stream_text`, a2a_client.py lines 505-583) -/

/-- The literal marker opening a status envelope. -/
def statusMarker : Str := S ("\x7b\"status\":")

/-- `raw_text.replace(carriage_return, empty)`. -/
def removeCR (s : Str) : Str := s.filter (fun c => c ≠ '\x0d')

/-- `data.get("message") or data.get("text")` on a decoded dict. -/
def msgOrTextField (d : List (Str × Json)) : Option Json :=
  match jsonGet d (S ("message")) with
  | some v => if jsonTruthy v then some v else jsonGet d (S ("text"))
  | none => jsonGet d (S ("text"))

/-- Step 1 of the sanitizer: whole-input `json.loads` succeeding with a dict
carrying a string `message` (or, when that is falsy or absent, `text`) field
returns that field stripped. -/
def jsonMessageField (text : Str) : Option Str :=
  match jsonLoads text with
  | some (Json.jobj d) =>
    match msgOrTextField d with
    | some (Json.jstr m) => some (strip m)
    | _ => none
  | _ => none

/-- Brace-counting scan used by the sanitizer: the index of the `}` that
closes an object opened just before the input (count starts at 1). The
scan is textual and does not skip braces inside string literals, exactly
like the source. -/
def braceScanGo (count i : Nat) : Str → Option Nat
  | [] => none
  | c :: rest =>
    if c = lbraceChar then braceScanGo (count + 1) (i + 1) rest
    else if c = rbraceChar then
      if count = 1 then some i else braceScanGo (count - 1) (i + 1) rest
    else braceScanGo count (i + 1) rest

def braceScan (s : Str) : Option Nat := braceScanGo 1 0 s

/-- The `while` loop of `sanitize_stream_text` collecting `cleaned_parts`,
including the post-loop append of the final remainder. `tstrip` is
`text.strip()` of the whole input (used by the unmatched-brace branch).
Fuel: every iteration strictly shrinks `remaining`, so `length + 1` at the
call site can never run out. -/
def optFrag (x : Str) : List Str := if strip x ≠ [] then [strip x] else []

/-- The fragment a matched status span contributes: its parsed `message`
field when it is a non-blank string, with literal two-character backslash-n
sequences converted and the result stripped. -/
def statusMsgParts (candidate : Str) : List Str :=
  match jsonLoads candidate with
  | some (Json.jobj d) =>
    match jsonGet d (S ("message")) with
    | some (Json.jstr m) =>
      if strip m ≠ [] then
        if strip (replaceAll (S ("\\n")) (S ("\n")) m) ≠ [] then
          [strip (replaceAll (S ("\\n")) (S ("\n")) m)]
        else []
      else []
    | _ => []
  | _ => []

def statusScanF (tstrip : Str) : Nat → Str → List Str
  | 0, _ => []
  | fuel + 1, remaining =>
    match splitOnce statusMarker remaining with
    | none => optFrag remaining
    | some (before, after) =>
      match braceScan after with
      | none =>
        -- no matching brace: conditional append, `break`, then the
        -- post-loop append fires on the same `remaining`
        optFrag before ++
          (if strip remaining ≠ [] ∧ strip remaining ≠ tstrip then [strip remaining] else []) ++
          optFrag remaining
      | some bi =>
        optFrag before ++ statusMsgParts (statusMarker ++ after.take (bi + 1)) ++
          statusScanF tstrip fuel (after.drop (bi + 1))

/-- The `cleaned_parts` list computed by `sanitize_stream_text`. -/
def cleanedParts (raw : Str) : List Str :=
  let text := removeCR raw
  statusScanF (strip text) (text.length + 1) text

/-- Deduplication of consecutive identical fragments (`deduped`). -/
def dedupAdjacentGo (prev : Str) : List Str → List Str
  | [] => []
  | y :: rest => if y = prev then dedupAdjacentGo prev rest else y :: dedupAdjacentGo y rest

def dedupAdjacent : List Str → List Str
  | [] => []
  | x :: rest => x :: dedupAdjacentGo x rest

/-- The deduplicated fragment list of `sanitize_stream_text`. -/
def sanitizeDeduped (raw : Str) : List Str := dedupAdjacent (cleanedParts raw)

/-- Fragment recombination (steps 3-5): empty fragment list falls back to
the stripped input; two or more deduplicated fragments return the longer
of the first and last; otherwise the blank-line join, stripped. -/
def sanitizeCombine (text : Str) (parts : List Str) : Str :=
  if parts = [] then strip text
  else
    if 2 ≤ (dedupAdjacent parts).length then
      if ((dedupAdjacent parts).headD []).length ≤ ((dedupAdjacent parts).getLastD []).length
      then (dedupAdjacent parts).getLastD []
      else (dedupAdjacent parts).headD []
    else strip (joinWith (S ("\n\n")) (dedupAdjacent parts))

/-- `sanitize_stream_text` (a2a_client.py lines 505-583). -/
def sanitize_stream_text (raw : Str) : Str :=
  if raw = [] then []
  else
    match jsonMessageField (removeCR raw) with
    | some m => m
    | none => sanitizeCombine (removeCR raw) (cleanedParts raw)

/-! ## Execution-Plan Formatter (`format_execution_plan_text`, lines 193-239) -/

inductive PyVal where
  | pnone : PyVal
  | pbool : Bool → PyVal
  | pint : Int → PyVal
  | pfloat : Str → PyVal
  | pstr : Str → PyVal
  | plist : List PyVal → PyVal
  | ptuple : List PyVal → PyVal
  | pdict : List (PyVal × PyVal) → PyVal

/-- Python truthiness of a literal value. -/
def pyTruthy : PyVal → Bool
  | .pnone => false
  | .pbool b => b
  | .pint n => n ≠ 0
  | .pfloat lex => ! jsonNumIsZero lex
  | .pstr s => ! s.isEmpty
  | .plist xs => ! xs.isEmpty
  | .ptuple xs => ! xs.isEmpty
  | .pdict kvs => ! kvs.isEmpty

/-- Key equality as used by `dict.get(string_key)`: only string keys can match
a string lookup (numbers and other keys never compare equal to a str). -/
def pyKeyMatches (k : Str) : PyVal → Bool
  | .pstr s => s == k
  | _ => false

/-- `item.get(k)` on a parsed dict literal (last duplicate key wins). -/
def pyDictGet (kvs : List (PyVal × PyVal)) (k : Str) : Option PyVal :=
  match kvs.reverse.find? (fun p => pyKeyMatches k p.1) with
  | some p => some p.2
  | none => none

/-- Python `a or b` where `a` came from `dict.get` (None when absent). -/
def pyOrOpt (a : Option PyVal) (b : PyVal) : PyVal :=
  match a with
  | some v => if pyTruthy v then v else b
  | none => b

mutual

/-- `str()` of a literal value; Python quote-selection and string escaping
inside container reprs are simplified to single quotes without escapes
(the execution-plan records only format scalar field values). -/
def pyStr : PyVal → Str
  | .pnone => S ("None")
  | .pbool true => S ("True")
  | .pbool false => S ("False")
  | .pint n => intToStr n
  | .pfloat lex => lex
  | .pstr s => s
  | .plist xs => '[' :: (joinWith (S (", ")) (pyReprList xs) ++ [']'])
  | .ptuple xs => '(' :: (joinWith (S (", ")) (pyReprList xs) ++ [')'])
  | .pdict kvs =>
    lbraceChar :: (joinWith (S (", ")) (pyReprPairs kvs) ++ [rbraceChar])

/-- `repr()` of a literal value (strings gain quotes). -/
def pyRepr : PyVal → Str
  | .pstr s => '\'' :: (s ++ ['\''])
  | .pnone => S ("None")
  | .pbool true => S ("True")
  | .pbool false => S ("False")
  | .pint n => intToStr n
  | .pfloat lex => lex
  | .plist xs => '[' :: (joinWith (S (", ")) (pyReprList xs) ++ [']'])
  | .ptuple xs => '(' :: (joinWith (S (", ")) (pyReprList xs) ++ [')'])
  | .pdict kvs =>
    lbraceChar :: (joinWith (S (", ")) (pyReprPairs kvs) ++ [rbraceChar])

def pyReprList : List PyVal → List Str
  | [] => []
  | v :: rest => pyRepr v :: pyReprList rest

def pyReprPairs : List (PyVal × PyVal) → List Str
  | [] => []
  | p :: rest => (pyRepr p.1 ++ S (": ") ++ pyRepr p.2) :: pyReprPairs rest

end

def pyWsSkip (s : Str) : Str :=
  s.dropWhile (fun c => c == ' ' || c == '\t' || c == '\n' || c == '\x0d')

def pyIdentChar (c : Char) : Bool := c.isAlphanum || c == '_'

def headIsIdentChar (s : Str) : Bool :=
  match s with
  | c :: _ => pyIdentChar c
  | [] => false

/-- Body of a Python string literal delimited by quote `q`; unknown escapes
keep the backslash (Python semantics); a raw newline inside is a syntax
error. Octal and named escapes are not modelled. -/
def pyStringGo (q : Char) : Str → Option (Str × Str)
  | [] => none
  | c :: rest =>
    if c = q then some ([], rest)
    else if c = '\n' then none
    else if c = bslashChar then
      match rest with
      | [] => none
      | e :: rest2 =>
        let dec : Str :=
          if e = 'n' then ['\n']
          else if e = 't' then ['\t']
          else if e = 'r' then ['\x0d']
          else if e = bslashChar then [bslashChar]
          else if e = '\'' then ['\'']
          else if e = dquoteChar then [dquoteChar]
          else if e = 'b' then ['\x08']
          else if e = 'f' then ['\x0c']
          else if e = 'v' then ['\x0b']
          else if e = '0' then ['\x00']
          else [bslashChar, e]
        match pyStringGo q rest2 with
        | some (tail, r) => some (dec ++ tail, r)
        | none => none
    else
      match pyStringGo q rest with
      | some (tail, r) => some (c :: tail, r)
      | none => none

def digitsToNat (ds : Str) : Nat :=
  ds.foldl (fun a c => a * 10 + (c.toNat - '0'.toNat)) 0

/-- A Python number literal with optional unary sign (Python 3 rejects
leading zeros on decimal literals). -/
def pyNumberLex (s : Str) : Option (PyVal × Str) :=
  let (neg, signStr, r1) :=
    match s with
    | '-' :: r => (true, ['-'], r)
    | '+' :: r => (false, ([] : Str), r)
    | _ => (false, ([] : Str), s)
  let ds := r1.takeWhile isDigitChar
  if ds = [] then none
  else if ds.length > 1 ∧ ds.headD '0' = '0' then none
  else
    let r2 := r1.drop ds.length
    match r2 with
    | '.' :: r3 =>
      let fs := r3.takeWhile isDigitChar
      some (.pfloat (signStr ++ ds ++ ['.'] ++ fs), r3.drop fs.length)
    | e :: r3 =>
      if e = 'e' ∨ e = 'E' then
        let (es, r4) :=
          match r3 with
          | '+' :: rr => ([e, '+'], rr)
          | '-' :: rr => ([e, '-'], rr)
          | _ => ([e], r3)
        let xs := r4.takeWhile isDigitChar
        if xs = [] then none
        else some (.pfloat (signStr ++ ds ++ es ++ xs), r4.drop xs.length)
      else
        some (.pint (if neg then -(digitsToNat ds : Int) else (digitsToNat ds : Int)), r2)
    | [] =>
      some (.pint (if neg then -(digitsToNat ds : Int) else (digitsToNat ds : Int)), r2)

mutual

/-- One Python literal at the head of the input (whitespace pre-skipped). -/
def pyValueF : Nat → Str → Option (PyVal × Str)
  | 0, _ => none
  | fuel + 1, s =>
    match s with
    | [] => none
    | c :: rest =>
      if c = '\'' ∨ c = dquoteChar then
        match pyStringGo c rest with
        | some (str, r) => some (.pstr str, r)
        | none => none
      else if c = '[' then
        let r1 := pyWsSkip rest
        match r1 with
        | ']' :: r2 => some (.plist [], r2)
        | _ =>
          match pyElemsF fuel ']' [] r1 with
          | some (xs, _, r) => some (.plist xs, r)
          | none => none
      else if c = '(' then
        let r1 := pyWsSkip rest
        match r1 with
        | ')' :: r2 => some (.ptuple [], r2)
        | _ =>
          match pyElemsF fuel ')' [] r1 with
          | some ([v], false, r) => some (v, r)
          | some (xs, _, r) => some (.ptuple xs, r)
          | none => none
      else if c = lbraceChar then
        let r1 := pyWsSkip rest
        match r1 with
        | c2 :: r2 =>
          if c2 = rbraceChar then some (.pdict [], r2)
          else
            match pyMembersF fuel [] r1 with
            | some (kvs, r) => some (.pdict kvs, r)
            | none => none
        | [] => none
      else if (S ("True")).isPrefixOf s ∧ ¬ headIsIdentChar (s.drop 4) then
        some (.pbool true, s.drop 4)
      else if (S ("False")).isPrefixOf s ∧ ¬ headIsIdentChar (s.drop 5) then
        some (.pbool false, s.drop 5)
      else if (S ("None")).isPrefixOf s ∧ ¬ headIsIdentChar (s.drop 4) then
        some (.pnone, s.drop 4)
      else pyNumberLex s

/-- Elements of a Python list/tuple literal up to `close`; the Bool records
whether any comma was consumed (distinguishing `(v)` from `(v,)`). -/
def pyElemsF : Nat → Char → List PyVal → Str → Option (List PyVal × Bool × Str)
  | 0, _, _, _ => none
  | fuel + 1, close, acc, s =>
    match pyValueF fuel (pyWsSkip s) with
    | some (v, r1) =>
      match pyWsSkip r1 with
      | ',' :: r2 =>
        let r3 := pyWsSkip r2
        match r3 with
        | c :: r4 =>
          if c = close then some (acc ++ [v], true, r4)
          else
            match pyElemsF fuel close (acc ++ [v]) r3 with
            | some (xs, _, r) => some (xs, true, r)
            | none => none
        | [] => none
      | c :: r2 => if c = close then some (acc ++ [v], false, r2) else none
      | [] => none
    | none => none

/-- Members of a Python dict literal (trailing comma allowed). -/
def pyMembersF : Nat → List (PyVal × PyVal) → Str → Option (List (PyVal × PyVal) × Str)
  | 0, _, _ => none
  | fuel + 1, acc, s =>
    match pyValueF fuel (pyWsSkip s) with
    | some (k, r1) =>
      match pyWsSkip r1 with
      | ':' :: r2 =>
        match pyValueF fuel (pyWsSkip r2) with
        | some (v, r3) =>
          match pyWsSkip r3 with
          | ',' :: r4 =>
            let r5 := pyWsSkip r4
            match r5 with
            | c :: r6 =>
              if c = rbraceChar then some (acc ++ [(k, v)], r6)
              else pyMembersF fuel (acc ++ [(k, v)]) r5
            | [] => none
          | c :: r4 => if c = rbraceChar then some (acc ++ [(k, v)], r4) else none
          | [] => none
        | none => none
      | _ => none
    | none => none

end

/-- `ast.literal_eval` on the supported literal subset; `none` models any
raised parse exception. -/
def pyLiteralEval (s : Str) : Option PyVal :=
  match pyValueF (s.length + 1) (pyWsSkip s) with
  | some (v, r) => if pyWsSkip r = [] then some v else none
  | none => none

def planHeading (raw : Str) : Str :=
  if containsSubstr (S ("Updated")) raw ∧ containsSubstr (S ("todo list")) raw
  then S ("📋 **Execution Plan (updated)**")
  else S ("📋 **Execution Plan**")

def statusEmojiOf (st : Str) : Char :=
  if st = S ("in_progress") then '⏳'
  else if st = S ("completed") then '✅'
  else if st = S ("pending") then '📋'
  else '•'

/-- The substring of the plan payload between the first `[` and the last
`]`, when both exist in order. -/
def planSegment (raw : Str) : Option Str :=
  match findCharIdx '[' raw, rfindCharIdx ']' raw with
  | some ls, some le => if le ≤ ls then none else some ((raw.drop ls).take (le + 1 - ls))
  | _, _ => none

/-- The record list of the plan payload: bracket slice, `literal_eval`,
`isinstance(..., list)`; `none` covers every parse-failure path on which
`format_execution_plan_text` returns its input unchanged. -/
def planTodos (raw : Str) : Option (List PyVal) :=
  match planSegment raw with
  | some seg =>
    match pyLiteralEval seg with
    | some (.plist todos) => some todos
    | _ => none
  | none => none

/-- One checklist line per dict record. `(item.get(status) or empty).lower()`
raises AttributeError when the status value is truthy and not a string; that
exception propagates out of `format_execution_plan_text` (modelled as
`Except.error`). -/
def bulletLines : List PyVal → Except Unit (List Str)
  | [] => .ok []
  | item :: rest =>
    match item with
    | .pdict kvs =>
      let content := pyOrOpt (pyDictGet kvs (S ("content")))
        (pyOrOpt (pyDictGet kvs (S ("task"))) (.pstr (S ("(no description)"))))
      let stVal := pyOrOpt (pyDictGet kvs (S ("status"))) (.pstr [])
      match stVal with
      | .pstr st =>
        let emoji := statusEmojiOf (toLowerStr st)
        match bulletLines rest with
        | .ok ls => .ok ((S ("- ") ++ [emoji, ' '] ++ pyStr content) :: ls)
        | .error e => .error e
      | _ => .error ()
    | _ => bulletLines rest

/-- `format_execution_plan_text` (a2a_client.py lines 193-239); the only
raising path is a truthy non-string `status` field inside a record. -/
def format_execution_plan_text (raw : Str) : Except Unit Str :=
  if raw = [] then .ok raw
  else
    if (S ("- ✅")).isPrefixOf (strip raw) ∨ (S ("✅")).isPrefixOf (strip raw) ∨
        (strip raw).contains '📋' then .ok raw
    else
      match planTodos raw with
      | none => .ok raw
      | some todos =>
        match bulletLines todos with
        | .error e => .error e
        | .ok items =>
          if items.length = 0 then .ok raw
          else .ok (joinWith (S ("\n")) (planHeading raw :: ([] : Str) :: items))

/-! ## Tool-Notification Summarizer (`summarize_tool_notification`, lines 242-261) -/

def summarize_tool_notification (raw : Str) : Str :=
  if raw = [] then []
  else
    let text := strip raw
    let text :=
      match splitOnce (S ("response=")) text with
      | some (b, _) => strip b
      | none => text
    if text = [] then []
    else
      let l0 := text.takeWhile (fun c => c ≠ '\n' ∧ c ≠ '\x0d')
      let t := strip l0
      if 160 < t.length then rstrip (t.take 160) ++ [Char.ofNat 0x2026] else t

/-! ## Embedded-JSON stripper (`_strip_embedded_json`, lines 353-410) -/

def sejPatterns : List Str :=
  [S ("\x7b\"status\":"), S ("\x7b\"answer\":"), S ("\x7b\"is_task_complete\":"),
   S ("\x7b\"action_taken\":"), S ("\x7b\"formatted_text\":"), S ("response=")]

/-- The pattern loop of `_strip_embedded_json`: the first matching pattern
is stripped (text before it kept, text after the brace-matched span kept)
and the loop breaks. -/
def sejGo (clean : Str) : List Str → Str
  | [] => clean
  | p :: rest =>
    match splitOnce p clean with
    | none => sejGo clean rest
    | some (before, after) =>
      let parts1 := if strip before ≠ [] then [strip before] else []
      let parts2 :=
        match braceScan after with
        | some i =>
          if i + 1 < after.length ∧ strip (after.drop (i + 1)) ≠ [] then
            [strip (after.drop (i + 1))]
          else []
        | none => []
      let ps := parts1 ++ parts2
      if ps ≠ [] then joinWith (S ("\n\n")) ps else strip before

def stripEmbeddedJson (text : Str) : Str := sejGo text sejPatterns

/-! ## Structured-Response Parser (`parse_structured_response`, lines 264-350)

Pydantic validation is modelled structurally (required fields with their
declared types, extras ignored, `model_dump` reconstructing the field
set); pydantic lax-mode scalar coercions (e.g. the string "true" coercing
to a bool) are not modelled. -/

structure ParsedAnswer where
  content : Json
  requireUserInput : Json
  metadata : Json

def uimMarker : Str := S ("UserInputMetaData:")

/-- `InputField.model_validate` followed by `model_dump`. -/
def validateInputField : Json → Option Json
  | .jobj d =>
    match jsonGet d (S ("field_name")), jsonGet d (S ("field_description")) with
    | some (.jstr n), some (.jstr ds) =>
      let mkDump : Json → Json := fun fv =>
        .jobj [(S ("field_name"), .jstr n), (S ("field_description"), .jstr ds),
               (S ("field_values"), fv)]
      match jsonGet d (S ("field_values")) with
      | none => some (mkDump .null)
      | some .null => some (mkDump .null)
      | some (.jarr vs) =>
        if vs.all (fun v => match v with | .jstr _ => true | _ => false) then
          some (mkDump (.jarr vs))
        else none
      | some _ => none
    | _, _ => none
  | _ => none

def validateInputFields : List Json → Option (List Json)
  | [] => some []
  | f :: rest =>
    match validateInputField f, validateInputFields rest with
    | some df, some drest => some (df :: drest)
    | _, _ => none

/-- `Metadata.model_validate` followed by `model_dump` (`user_input` is a
required bool, `input_fields` an optional list of `InputField`). -/
def validateMetadata : Json → Option Json
  | .jobj d =>
    match jsonGet d (S ("user_input")) with
    | some (.jbool u) =>
      match jsonGet d (S ("input_fields")) with
      | none => some (.jobj [(S ("user_input"), .jbool u), (S ("input_fields"), .null)])
      | some .null => some (.jobj [(S ("user_input"), .jbool u), (S ("input_fields"), .null)])
      | some (.jarr fs) =>
        match validateInputFields fs with
        | some dfs => some (.jobj [(S ("user_input"), .jbool u), (S ("input_fields"), .jarr dfs)])
        | none => none
      | some _ => none
    | _ => none
  | _ => none

/-- `PlatformEngineerResponse.model_validate` mapped to the result dict the
caller builds from it. -/
def validatePlatform : Json → Option ParsedAnswer
  | .jobj d =>
    match jsonGet d (S ("is_task_complete")), jsonGet d (S ("require_user_input")),
        jsonGet d (S ("content")) with
    | some (.jbool _), some (.jbool r), some (.jstr c) =>
      match jsonGet d (S ("metadata")) with
      | none => some ⟨.jstr c, .jbool r, .null⟩
      | some .null => some ⟨.jstr c, .jbool r, .null⟩
      | some m =>
        match validateMetadata m with
        | some md => some ⟨.jstr c, .jbool r, md⟩
        | none => none
    | _, _, _ => none
  | _ => none

/-- `JarvisResponse.model_validate` mapped to the result dict (answer string
required, metadata required, `require_user_input` forced to true). -/
def validateJarvis : Json → Option ParsedAnswer
  | .jobj d =>
    match jsonGet d (S ("answer")) with
    | some (.jstr a) =>
      match jsonGet d (S ("metadata")) with
      | some m =>
        match validateMetadata m with
        | some md => some ⟨.jstr a, .jbool true, md⟩
        | none => none
      | none => none
    | _ => none
  | _ => none

/-- The legacy dict branch (`data.get` triple with defaults). -/
def legacyAnswer (d : List (Str × Json)) (text : Str) : ParsedAnswer :=
  ⟨(jsonGet d (S ("content"))).getD (.jstr text),
   (jsonGet d (S ("require_user_input"))).getD (.jbool false),
   (jsonGet d (S ("metadata"))).getD .null⟩

/-- The final fall-through: strip embedded JSON, no user input required. -/
def fallbackAnswer (text : Str) : ParsedAnswer :=
  ⟨.jstr (stripEmbeddedJson text), .jbool false, .null⟩

/-- The `UserInputMetaData:`-prefix lane; it is wrapped in a
catch-everything `try`, so every failure inside it falls through
(returns `none`). -/
def uimLaneResult (text : Str) : Option ParsedAnswer :=
  let tstrip := strip text
  if uimMarker.isPrefixOf tstrip then
    let jsonStr := strip (tstrip.drop uimMarker.length)
    match jsonLoads jsonStr with
    | none => none
    | some data =>
      match validatePlatform data with
      | some r => some r
      | none =>
        match data with
        | .jobj d =>
          if (jsonGet d (S ("content"))).isSome then some (legacyAnswer d text) else none
        | _ => none
  else none

/-- `parse_structured_response` (a2a_client.py lines 264-350). The
pure-JSON stage is guarded only by `except (JSONDecodeError, ValueError)`;
when `json.loads` yields a non-container (int/float/bool/None) the
membership test `"content" in data` raises an uncaught TypeError, and when
it yields a string or list containing `content`, `data.get` raises an
uncaught AttributeError - both modelled as `Except.error`. -/
def parse_structured_response (text : Str) : Except Unit ParsedAnswer :=
  if text = [] ∨ strip text = [] then .ok ⟨.jstr text, .jbool false, .null⟩
  else
    match uimLaneResult text with
    | some r => .ok r
    | none =>
      match jsonLoads (strip text) with
      | none => .ok (fallbackAnswer text)
      | some data =>
        match validatePlatform data with
        | some r => .ok r
        | none =>
          match validateJarvis data with
          | some r => .ok r
          | none =>
            match data with
            | .jobj d =>
              if (jsonGet d (S ("content"))).isSome then .ok (legacyAnswer d text)
              else .ok (fallbackAnswer text)
            | .jstr s =>
              if containsSubstr (S ("content")) s then .error () else .ok (fallbackAnswer text)
            | .jarr xs =>
              if xs.any (fun v => match v with | .jstr s => s == S ("content") | _ => false)
              then .error ()
              else .ok (fallbackAnswer text)
            | _ => .error ()

/-! ## Event Router & Accumulator (`handle_user_input` streaming loop,
a2a_client.py lines 870-1328)

The loop state is one `AccState` per user turn; each streaming chunk is
decoded at the transport boundary into a `ProtocolEvent` (per the actual
A2A event shapes, an event carries either a status or a single artifact,
never both). `statusEv` carries the `_flatten_text_from_message_dict`
result of the status message and, when `metadata.tool_notification` is
true, the decoded tool metadata (its `status` defaulting to `started` and
`tool_name` to `unknown` exactly as `metadata.get` does). `artifactEv`
carries the artifact name (the falsy name `None` modelled as the empty
string) and the texts of its text-bearing parts, which the loop
concatenates. `is_task_complete` merely breaks the loop, i.e. truncates
the event list, so theorems quantifying over all event lists cover it. -/

structure AccState where
  finalStateText : Str
  allText : Str
  partialResultText : Str
  lastEventSignature : Str
  executionMarkdown : Str
  toolEntries : List Str
  toolSeen : List Str
  toolMarkdown : Str
  responseStreamBuffer : Str
  streamingMarkdown : Str
  spinnerStopped : Bool
  liveStarted : Bool

def initialAccState : AccState :=
  ⟨[], [], [], [], [], [], [], [], [], [], false, false⟩

inductive TaskPhase where
  | working : TaskPhase
  | other : TaskPhase

structure ToolMeta where
  status : Str
  toolName : Str

inductive ProtocolEvent where
  | statusEv (phase : TaskPhase) (text : Str) (toolMeta : Option ToolMeta)
  | artifactEv (name : Str) (parts : List Str)

def nmStreaming : Str := S ("streaming_result")

def nmPartial : Str := S ("partial_result")

def nmComplete : Str := S ("complete_result")

def nmFinal : Str := S ("final_result")

def nmPlanUpdate : Str := S ("execution_plan_update")

def nmPlanStatusUpdate : Str := S ("execution_plan_status_update")

def nmPlanStreaming : Str := S ("execution_plan_streaming")

def nmToolStart : Str := S ("tool_notification_start")

def nmToolEnd : Str := S ("tool_notification_end")

/-- `tool_markdown` rebuilt from the most recent 8 entries. -/
def toolMarkdownOf (entries : List Str) : Str :=
  joinWith (S ("\n")) ((takeRight 8 entries).map (fun l => S ("- ") ++ l))

/-- A (stripped) line counting as a checklist item for splice targeting. -/
def isChecklistLine (l : Str) : Bool :=
  let t := strip l
  (! t.isEmpty) && ((S ("- ✅")).isPrefixOf t || (S ("- ❌")).isPrefixOf t ||
    (S ("- ⏳")).isPrefixOf t || (S ("- 🔄")).isPrefixOf t)

/-- Index of the last checklist line (the backwards scan of the source). -/
def lastChecklistIdx (ls : List Str) : Option Nat :=
  match ls.reverse.findIdx? isChecklistLine with
  | some i => some (ls.length - 1 - i)
  | none => none

/-- Replace the first line whose stripped form equals `target`. -/
def replaceFirstLineEq (target repl : Str) : List Str → Option (List Str)
  | [] => none
  | l :: rest =>
    if strip l = target then some (repl :: rest)
    else
      match replaceFirstLineEq target repl rest with
      | some r => some (l :: r)
      | none => none

/-- Insert `item` after the last checklist line (or append). -/
def appendExecItem (md item : Str) : Str :=
  let ls := splitOnNl md
  match lastChecklistIdx ls with
  | some i => joinWith (S ("\n")) (insertAt ls (i + 1) item)
  | none => joinWith (S ("\n")) (ls ++ [item])

/-- Execution-plan splice for a tool-started notification. -/
def execPlanWithStarted (md item : Str) : Str :=
  if md ≠ [] then
    if ¬ containsSubstr item md then appendExecItem md item else md
  else S ("📋 **Execution Plan**\n\n") ++ item

/-- Execution-plan splice for a tool-completed/failed notification. -/
def execPlanWithCompleted (md item startedItem : Str) : Str :=
  if md ≠ [] then
    let ls := splitOnNl md
    match replaceFirstLineEq startedItem item ls with
    | some ls2 => joinWith (S ("\n")) ls2
    | none =>
      if ¬ containsSubstr item md then
        match lastChecklistIdx ls with
        | some i => joinWith (S ("\n")) (insertAt ls (i + 1) item)
        | none => joinWith (S ("\n")) (ls ++ [item])
      else joinWith (S ("\n")) ls
  else S ("📋 **Execution Plan**\n\n") ++ item

/-- The display-name cleanup for a started notification. -/
def toolStartDisplayName (notification : Str) : Str :=
  strip (replaceAll (S ("Tool ")) []
    (strip (replaceAll (S ("Calling")) [] (replaceAll (S ("⏳")) [] notification))))

/-- The display-name cleanup for a completed/failed notification. -/
def toolDoneDisplayName (icon completion : Str) : Str :=
  strip (replaceAll (S ("Tool ")) []
    (strip (replaceAll (S ("failed")) []
      (replaceAll (S ("completed")) [] (replaceAll icon [] completion)))))

/-- Status-metadata tool notification, `status == started` branch. -/
def toolMetaStartedStep (s : AccState) (toolName text : Str) : AccState :=
  let n0 := summarize_tool_notification text
  let notification := if n0 = [] then S ("Calling ") ++ toolName else n0
  if notification ≠ [] ∧ notification ∉ s.toolSeen then
    let entries := s.toolEntries ++ [S ("⏳ ") ++ notification]
    let item := S ("- ⏳ Tool ") ++ toolStartDisplayName notification ++ S (" started")
    { s with
      toolSeen := s.toolSeen ++ [notification],
      toolEntries := entries,
      toolMarkdown := toolMarkdownOf entries,
      executionMarkdown := execPlanWithStarted s.executionMarkdown item }
  else s

/-- Status-metadata tool notification, `status == completed/failed` branch. -/
def toolMetaDoneStep (s : AccState) (toolStatus toolName text : Str) : AccState :=
  let c0 := summarize_tool_notification text
  let completion := if c0 = [] then toolName ++ [' '] ++ toolStatus else c0
  if completion ≠ [] ∧ completion ∉ s.toolSeen then
    let icon := if toolStatus = S ("failed") then S ("❌") else S ("✅")
    let entries := s.toolEntries ++ [icon ++ [' '] ++ completion]
    let display := toolDoneDisplayName icon completion
    let statusText := if toolStatus = S ("completed") then S ("completed") else S ("failed")
    let item := S ("- ") ++ icon ++ S (" Tool ") ++ display ++ [' '] ++ statusText
    let startedItem := S ("- ⏳ Tool ") ++ display ++ S (" started")
    { s with
      toolSeen := s.toolSeen ++ [completion],
      toolEntries := entries,
      toolMarkdown := toolMarkdownOf entries,
      executionMarkdown := execPlanWithCompleted s.executionMarkdown item startedItem }
  else s

/-- Lane (a): status event carrying `metadata.tool_notification == true`;
the spinner is stopped before the status subcases. -/
def toolMetaLane (s : AccState) (m : ToolMeta) (text : Str) : AccState :=
  let s1 := { s with spinnerStopped := true }
  if m.status = S ("started") then toolMetaStartedStep s1 m.toolName text
  else if m.status = S ("completed") ∨ m.status = S ("failed") then
    toolMetaDoneStep s1 m.status m.toolName text
  else s1

/-- Lane (b), `partial_result`: unconditional overwrite of the override. -/
def partialResultLane (s : AccState) (text : Str) : AccState :=
  if text ≠ [] then { s with partialResultText := sanitize_stream_text text } else s

/-- Lane (b), `complete_result`/`final_result`: `complete_result` always
overwrites; `final_result` only fills an empty override. -/
def completeResultLane (s : AccState) (name text : Str) : AccState :=
  if text ≠ [] then
    let completeResultText := sanitize_stream_text text
    if s.partialResultText = [] ∨ name = nmComplete then
      { s with partialResultText := completeResultText }
    else s
  else s

/-- Lane (c): execution-plan update; formatting may raise (propagates). -/
def execPlanLane (s : AccState) (text : Str) : Except Unit AccState :=
  if text ≠ [] then
    match format_execution_plan_text text with
    | .error e => .error e
    | .ok md => .ok { s with executionMarkdown := md, spinnerStopped := true, liveStarted := true }
  else .ok s

/-- Legacy lane (e): `tool_notification_start` artifact. -/
def toolStartArtifactLane (s : AccState) (text : Str) : AccState :=
  let s1 := { s with spinnerStopped := true }
  let n := summarize_tool_notification text
  if n ≠ [] ∧ n ∉ s1.toolSeen then
    let entries := s1.toolEntries ++ [S ("⏳ ") ++ n]
    { s1 with
      toolSeen := s1.toolSeen ++ [n],
      toolEntries := entries,
      toolMarkdown := toolMarkdownOf entries }
  else s1

/-- Legacy lane (e): `tool_notification_end` artifact (no spinner stop in
the source for this lane). -/
def toolEndArtifactLane (s : AccState) (text : Str) : AccState :=
  let n := summarize_tool_notification text
  if n ≠ [] ∧ n ∉ s.toolSeen then
    let entries := s.toolEntries ++ [S ("✅ ") ++ n]
    { s with
      toolSeen := s.toolSeen ++ [n],
      toolEntries := entries,
      toolMarkdown := toolMarkdownOf entries }
  else s

def endsWithSpaceNlTab (s : Str) : Bool :=
  match s.getLast? with
  | some c => c == ' ' || c == '\n' || c == '\t'
  | none => false

def startsWithSpaceNlTab (s : Str) : Bool :=
  match s with
  | c :: _ => c == ' ' || c == '\n' || c == '\t'
  | [] => false

/-- The progressive-extension merge of lane (f). -/
def mergeStreamBuffer (buffer clean : Str) : Str :=
  let signature := strip clean
  if strip buffer ≠ [] ∧ (strip buffer).isPrefixOf signature then clean
  else if strip buffer ≠ [] ∧ containsSubstr (strip buffer) signature then clean
  else if buffer ≠ [] ∧ ¬ endsWithSpaceNlTab buffer ∧ ¬ startsWithSpaceNlTab clean then
    buffer ++ [' '] ++ clean
  else buffer ++ clean

/-- The dedup-then-merge tail of lane (f), after spinner/dashboard setup. -/
def streamingApply (s : AccState) (clean : Str) : AccState :=
  if strip clean = s.lastEventSignature then s
  else
    { s with
      lastEventSignature := strip clean,
      responseStreamBuffer := mergeStreamBuffer s.responseStreamBuffer clean,
      finalStateText := mergeStreamBuffer s.responseStreamBuffer clean,
      allText := mergeStreamBuffer s.responseStreamBuffer clean,
      streamingMarkdown := mergeStreamBuffer s.responseStreamBuffer clean }

/-- Lane (f): any other named artifact with non-empty text (canonically
`streaming_result`). Spinner stop and dashboard start precede the
sanitize/dedup checks; `intermediate_state` is always false on artifact
events, so `finalStateText` tracks every merge. -/
def streamingLane (s0 : AccState) (text : Str) : AccState :=
  if sanitize_stream_text text = [] then
    { s0 with spinnerStopped := true, liveStarted := true }
  else
    streamingApply { s0 with spinnerStopped := true, liveStarted := true }
      (sanitize_stream_text text)

/-- One iteration of the `async for` body. Status events without tool
metadata extract text but never store it (the status text is only read by
lanes guarded by `artifact_name`). -/
def stepEvent (s : AccState) (e : ProtocolEvent) : Except Unit AccState :=
  match e with
  | .statusEv _ text m =>
    match m with
    | some meta => .ok (toolMetaLane s meta text)
    | none => .ok s
  | .artifactEv name parts =>
    let text := parts.foldl (· ++ ·) []
    if name = nmPartial then .ok (partialResultLane s text)
    else if name = nmComplete ∨ name = nmFinal then .ok (completeResultLane s name text)
    else if name = nmPlanUpdate ∨ name = nmPlanStatusUpdate then execPlanLane s text
    else if name = nmPlanStreaming then .ok s
    else if name = nmToolStart then .ok (if text ≠ [] then toolStartArtifactLane s text else s)
    else if name = nmToolEnd then .ok (if text ≠ [] then toolEndArtifactLane s text else s)
    else if text ≠ [] ∧ name ≠ [] then .ok (streamingLane s text)
    else .ok s

/-- The whole event loop; an exception aborts it (streaming fallback). -/
def runEvents (s : AccState) : List ProtocolEvent → Except Unit AccState
  | [] => .ok s
  | e :: rest =>
    match stepEvent s e with
    | .ok s2 => runEvents s2 rest
    | .error u => .error u

/-- The finalization guard: a non-empty streaming buffer containing the
`UserInputMetaData:` marker. -/
def bufferHasUim (s : AccState) : Bool :=
  (! s.responseStreamBuffer.isEmpty) && containsSubstr uimMarker s.responseStreamBuffer

/-- `text_to_render` of the accumulated-text fallback branch. -/
def textToRender (s : AccState) : Str :=
  if s.finalStateText ≠ [] then s.finalStateText
  else if s.allText ≠ [] then s.allText
  else s.responseStreamBuffer

/-- `final_response_text` stays empty unless the re-sanitized text is
non-empty. -/
def finalizeSanitize (t : Str) : Str :=
  if t ≠ [] then
    if sanitize_stream_text t ≠ [] then sanitize_stream_text t else []
  else []

/-- Turn finalization (lines 1287-1328): resolve `final_response_text`. -/
def finalizeTurn (s : AccState) : Str :=
  if bufferHasUim s then
    if sanitize_stream_text s.responseStreamBuffer ≠ [] then
      sanitize_stream_text s.responseStreamBuffer
    else []
  else if s.partialResultText ≠ [] then s.partialResultText
  else if s.responseStreamBuffer ≠ [] ∨ s.finalStateText ≠ [] ∨ s.allText ≠ [] then
    finalizeSanitize (textToRender s)
  else []

/-- Artifact event carrying one text part. -/
def artifactText (name text : Str) : ProtocolEvent := .artifactEv name [text]

/-- The stored final-answer override after running events from the fresh
turn state (empty when the loop aborted). -/
def partialAfterRun (evs : List ProtocolEvent) : Str :=
  match runEvents initialAccState evs with
  | .ok s => s.partialResultText
  | .error _ => []

/-- Propagation of a predicate through the fallible loop result. -/
def onOk (r : Except Unit AccState) (P : AccState → Prop) : Prop :=
  match r with
  | .ok s => P s
  | .error _ => True

/-- The finalized display text after running events from the fresh turn
state (empty when the loop aborted). -/
def finalAfterRun (evs : List ProtocolEvent) : Str :=
  match runEvents initialAccState evs with
  | .ok s => finalizeTurn s
  | .error _ => []

/-- The streaming buffer after running events from the fresh turn state. -/
def bufferAfterRun (evs : List ProtocolEvent) : Str :=
  match runEvents initialAccState evs with
  | .ok s => s.responseStreamBuffer
  | .error _ => []

/-! ## Lemmas about stripping -/

theorem rstrip_idem (s : Str) : rstrip (rstrip s) = rstrip s :=
  List.rdropWhile_idempotent pyWsChar s

theorem lstrip_strip (s : Str) : lstrip (strip s) = strip s := by
  rcases h : strip s with _ | ⟨c, t⟩
  · rfl
  · have hpre : strip s <+: lstrip s := List.rdropWhile_prefix pyWsChar (lstrip s)
    rw [h] at hpre
    obtain ⟨r, hr⟩ := hpre
    have hw : lstrip s ≠ [] := by rw [← hr]; simp
    have hc : pyWsChar c = false := by
      have hhead := List.head_dropWhile_not pyWsChar s (by exact hw)
      have hch : (lstrip s).head hw = c := by
        have h2 : lstrip s = c :: (t ++ r) := by rw [← hr]; rfl
        simp [h2]
      exact hch ▸ hhead
    show lstrip (c :: t) = c :: t
    exact List.dropWhile_cons_of_neg (by simp [hc])

theorem strip_idem (s : Str) : strip (strip s) = strip s := by
  show rstrip (lstrip (strip s)) = strip s
  rw [lstrip_strip]
  exact rstrip_idem (lstrip s)

theorem splitOnce_eq_none_of (pat s : Str) (h : containsSubstr pat s = false) :
    splitOnce pat s = none := by
  unfold containsSubstr at h
  cases hs : splitOnce pat s with
  | none => rfl
  | some p => rw [hs] at h; simp at h

theorem removeCR_of_not_mem (s : Str) (h : '\x0d' ∉ s) : removeCR s = s := by
  unfold removeCR
  rw [List.filter_eq_self]
  intro a ha
  simp only [decide_eq_true_eq]
  intro heq
  exact h (heq ▸ ha)

theorem dedupAdjacentGo_subset (l : List Str) :
    ∀ (prev : Str) (x : Str), x ∈ dedupAdjacentGo prev l → x ∈ l := by
  induction l with
  | nil => intro prev x hx; simp [dedupAdjacentGo] at hx
  | cons y rest ih =>
    intro prev x hx
    unfold dedupAdjacentGo at hx
    split at hx
    · exact List.mem_cons_of_mem y (ih prev x hx)
    · rcases List.mem_cons.mp hx with h1 | h2
      · exact h1 ▸ List.mem_cons_self y rest
      · exact List.mem_cons_of_mem y (ih y x h2)

theorem dedupAdjacent_subset (l : List Str) (x : Str) (hx : x ∈ dedupAdjacent l) : x ∈ l := by
  cases l with
  | nil => simp [dedupAdjacent] at hx
  | cons a rest =>
    unfold dedupAdjacent at hx
    rcases List.mem_cons.mp hx with h1 | h2
    · exact h1 ▸ List.mem_cons_self a rest
    · exact List.mem_cons_of_mem a (dedupAdjacentGo_subset rest a x h2)

theorem getLastD_mem (l : List Str) (h : l ≠ []) : l.getLastD [] ∈ l := by
  induction l with
  | nil => exact absurd rfl h
  | cons a t ih =>
    cases t with
    | nil => simp
    | cons b t2 =>
      have hm := ih (by simp)
      rw [List.getLastD_cons]
      exact List.mem_cons_of_mem a hm

theorem headD_mem (l : List Str) (h : l ≠ []) : l.headD [] ∈ l := by
  cases l with
  | nil => exact absurd rfl h
  | cons a t => simp

/-! ## Lemmas: every sanitizer fragment is stripped -/

theorem jsonMessageField_stripped (t m : Str) (h : jsonMessageField t = some m) :
    strip m = m := by
  unfold jsonMessageField at h
  split at h
  · split at h
    · injection h with h'
      exact h' ▸ strip_idem _
    · exact absurd h (by simp)
  · exact absurd h (by simp)

theorem optFrag_stripped (y x : Str) (hx : x ∈ optFrag y) : strip x = x := by
  unfold optFrag at hx
  split at hx
  · rcases List.mem_singleton.mp hx with rfl
    exact strip_idem _
  · simp at hx

theorem statusMsgParts_stripped (c x : Str) (hx : x ∈ statusMsgParts c) : strip x = x := by
  unfold statusMsgParts at hx
  split at hx
  · split at hx
    · split at hx
      · split at hx
        · rcases List.mem_singleton.mp hx with rfl
          exact strip_idem _
        · simp at hx
      · simp at hx
    · simp at hx
  · simp at hx

theorem statusScanF_stripped (ts : Str) :
    ∀ (fuel : Nat) (r x : Str), x ∈ statusScanF ts fuel r → strip x = x := by
  intro fuel
  induction fuel with
  | zero => intro r x hx; simp [statusScanF] at hx
  | succ n ih =>
    intro r x hx
    unfold statusScanF at hx
    split at hx
    · exact optFrag_stripped _ _ hx
    · split at hx
      · rw [List.mem_append, List.mem_append] at hx
        rcases hx with (hx | hx) | hx
        · exact optFrag_stripped _ _ hx
        · split at hx
          · rcases List.mem_singleton.mp hx with rfl
            exact strip_idem _
          · simp at hx
        · exact optFrag_stripped _ _ hx
      · rw [List.mem_append, List.mem_append] at hx
        rcases hx with (hx | hx) | hx
        · exact optFrag_stripped _ _ hx
        · exact statusMsgParts_stripped _ _ hx
        · exact ih _ x hx

theorem cleanedParts_stripped (raw x : Str) (hx : x ∈ cleanedParts raw) : strip x = x :=
  statusScanF_stripped _ _ _ x hx

theorem sanitizeCombine_stripped (raw : Str) :
    strip (sanitizeCombine (removeCR raw) (cleanedParts raw)) =
      sanitizeCombine (removeCR raw) (cleanedParts raw) := by
  unfold sanitizeCombine
  split
  · exact strip_idem _
  · split
    · have hne : dedupAdjacent (cleanedParts raw) ≠ [] := by
        intro hnil
        simp only [hnil, List.length_nil] at *
        omega
      split
      · exact cleanedParts_stripped raw _ (dedupAdjacent_subset _ _ (getLastD_mem _ hne))
      · exact cleanedParts_stripped raw _ (dedupAdjacent_subset _ _ (headD_mem _ hne))
    · exact strip_idem _

theorem sanitize_stripped (raw : Str) :
    strip (sanitize_stream_text raw) = sanitize_stream_text raw := by
  unfold sanitize_stream_text
  split
  · rfl
  · split
    case h_1 m heq => exact jsonMessageField_stripped _ m heq
    case h_2 => exact sanitizeCombine_stripped raw

/-! ## Claims C10, C4, C5 - sanitizer properties -/

/-- Claim C10: for every input string, the output of `sanitize_stream_text`
has no leading or trailing whitespace (it equals its own strip), since
every return path strips its result. -/
theorem sanitize_no_outer_whitespace (s : Str) :
    sanitize_stream_text s = strip (sanitize_stream_text s) :=
  (sanitize_stripped s).symm

/-- Counterexample to claim C4 as stated: this input contains no embedded
status-marker span, yet sanitize returns the extracted JSON `text` field,
not the stripped input. -/
theorem sanitize_strip_counterexample :
    containsSubstr statusMarker (S ("\x7b\"text\": \"hi\"\x7d")) = false ∧
    sanitize_stream_text (S ("\x7b\"text\": \"hi\"\x7d")) ≠
      strip (S ("\x7b\"text\": \"hi\"\x7d")) := by
  constructor
  · decide
  · decide

/-- Claim C4 (amended): for every input without an embedded status-marker
span, without carriage returns, and on which the whole-input JSON
message/text extraction (step 1) does not apply, sanitize acts as the
identity up to strip. -/
theorem sanitize_id_up_to_strip (s : Str)
    (h1 : containsSubstr statusMarker s = false)
    (h2 : '\x0d' ∉ s)
    (h3 : jsonMessageField s = none) :
    sanitize_stream_text s = strip s := by
  have hcr : removeCR s = s := removeCR_of_not_mem s h2
  by_cases hs : s = []
  · subst hs; rfl
  · unfold sanitize_stream_text
    rw [if_neg hs, hcr, h3]
    unfold cleanedParts
    rw [hcr]
    have hso : splitOnce statusMarker s = none := splitOnce_eq_none_of _ _ h1
    have hscan : statusScanF (strip s) (s.length + 1) s = optFrag s := by
      unfold statusScanF
      rw [hso]
    rw [hscan]
    by_cases hstrip : strip s = []
    · simp [sanitizeCombine, optFrag, hstrip]
    · simp [sanitizeCombine, optFrag, hstrip, dedupAdjacent, dedupAdjacentGo,
        joinWith, strip_idem]

theorem sanitize_id_up_to_strip_witness :
    containsSubstr statusMarker (S ("  hi  ")) = false ∧
    '\x0d' ∉ S ("  hi  ") ∧
    jsonMessageField (S ("  hi  ")) = none ∧
    sanitize_stream_text (S ("  hi  ")) = strip (S ("  hi  ")) :=
  ⟨by decide, by decide, by decide,
    sanitize_id_up_to_strip (S ("  hi  ")) (by decide) (by decide) (by decide)⟩

/-- Counterexample to claim C5 as stated: three fragments survive
deduplication, yet the result is not the blank-line join of the surviving
fragments (the code returns the longer of the first and last fragment
whenever two or more survive). -/
theorem sanitize_join_counterexample :
    2 < (sanitizeDeduped (S ("A\x7b\"status\":\x7b\x7d\x7dB\x7b\"status\":\x7b\x7d\x7dC"))).length ∧
    sanitize_stream_text (S ("A\x7b\"status\":\x7b\x7d\x7dB\x7b\"status\":\x7b\x7d\x7dC")) ≠
      joinWith (S ("\n\n"))
        (sanitizeDeduped (S ("A\x7b\"status\":\x7b\x7d\x7dB\x7b\"status\":\x7b\x7d\x7dC"))) := by
  constructor
  · decide
  · decide

/-- Claim C5 (amended): when the fragment-combination stage is reached
(step 1 did not apply) and at least two deduplicated fragments survive,
the result is the last fragment when its length is at least the first
fragment's length, otherwise the first fragment - in particular the
result is always one of the surviving fragments, never a blank-line join
of more than one. -/
theorem sanitize_fragment_selection (raw : Str)
    (h1 : jsonMessageField (removeCR raw) = none)
    (h2 : 2 ≤ (sanitizeDeduped raw).length) :
    sanitize_stream_text raw =
      (if ((sanitizeDeduped raw).headD []).length ≤ ((sanitizeDeduped raw).getLastD []).length
       then (sanitizeDeduped raw).getLastD []
       else (sanitizeDeduped raw).headD []) ∧
    sanitize_stream_text raw ∈ sanitizeDeduped raw := by
  have hraw : raw ≠ [] := by
    intro h
    subst h
    have hz : sanitizeDeduped ([] : Str) = [] := by decide
    rw [hz] at h2
    simp at h2
  have hparts : cleanedParts raw ≠ [] := by
    intro h
    unfold sanitizeDeduped at h2
    rw [h] at h2
    simp [dedupAdjacent] at h2
  have hne : sanitizeDeduped raw ≠ [] := by
    intro h
    rw [h] at h2
    simp at h2
  have hmain : sanitize_stream_text raw =
      (if ((sanitizeDeduped raw).headD []).length ≤ ((sanitizeDeduped raw).getLastD []).length
       then (sanitizeDeduped raw).getLastD []
       else (sanitizeDeduped raw).headD []) := by
    unfold sanitize_stream_text
    rw [if_neg hraw, h1]
    unfold sanitizeCombine
    rw [if_neg hparts]
    unfold sanitizeDeduped at h2 ⊢
    rw [if_pos h2]
  refine ⟨hmain, ?_⟩
  rw [hmain]
  split
  · exact getLastD_mem _ hne
  · exact headD_mem _ hne

theorem sanitize_fragment_selection_witness :
    jsonMessageField (removeCR (S ("A\x7b\"status\":\x7b\x7d\x7dB\x7b\"status\":\x7b\x7d\x7dC"))) = none ∧
    2 ≤ (sanitizeDeduped (S ("A\x7b\"status\":\x7b\x7d\x7dB\x7b\"status\":\x7b\x7d\x7dC"))).length ∧
    (sanitize_stream_text (S ("A\x7b\"status\":\x7b\x7d\x7dB\x7b\"status\":\x7b\x7d\x7dC")) =
      (if ((sanitizeDeduped (S ("A\x7b\"status\":\x7b\x7d\x7dB\x7b\"status\":\x7b\x7d\x7dC"))).headD []).length ≤
          ((sanitizeDeduped (S ("A\x7b\"status\":\x7b\x7d\x7dB\x7b\"status\":\x7b\x7d\x7dC"))).getLastD []).length
       then (sanitizeDeduped (S ("A\x7b\"status\":\x7b\x7d\x7dB\x7b\"status\":\x7b\x7d\x7dC"))).getLastD []
       else (sanitizeDeduped (S ("A\x7b\"status\":\x7b\x7d\x7dB\x7b\"status\":\x7b\x7d\x7dC"))).headD []) ∧
     sanitize_stream_text (S ("A\x7b\"status\":\x7b\x7d\x7dB\x7b\"status\":\x7b\x7d\x7dC")) ∈
       sanitizeDeduped (S ("A\x7b\"status\":\x7b\x7d\x7dB\x7b\"status\":\x7b\x7d\x7dC"))) :=
  ⟨by decide, by decide,
    sanitize_fragment_selection (S ("A\x7b\"status\":\x7b\x7d\x7dB\x7b\"status\":\x7b\x7d\x7dC"))
      (by decide) (by decide)⟩

/-! ## Claims C7 and C9 - execution-plan formatter -/

/-- Claim C7: on every input whose execution-plan payload fails to parse as
a list of records, or yields fewer than one bullet, the formatter returns
the input unchanged and never raises. -/
theorem format_plan_failsoft (raw : Str)
    (h : planTodos raw = none ∨
      ∃ ts, planTodos raw = some ts ∧ bulletLines ts = .ok []) :
    format_execution_plan_text raw = .ok raw := by
  unfold format_execution_plan_text
  split
  · rfl
  · split
    · rfl
    · rcases h with h | ⟨ts, hts, hb⟩
      · rw [h]
      · simp [hts, hb]

theorem format_plan_failsoft_witness :
    planTodos (S ("not a list")) = none ∧
    format_execution_plan_text (S ("not a list")) = .ok (S ("not a list")) :=
  ⟨rfl, format_plan_failsoft (S ("not a list")) (Or.inl rfl)⟩

theorem format_plan_ok_cases (x y : Str) (h : format_execution_plan_text x = .ok y) :
    y = x ∨ ∃ items, items ≠ [] ∧
      y = joinWith (S ("\n")) (planHeading x :: ([] : Str) :: items) := by
  unfold format_execution_plan_text at h
  split at h
  · exact Or.inl (by injection h with h'; exact h'.symm)
  · split at h
    · exact Or.inl (by injection h with h'; exact h'.symm)
    · split at h
      · exact Or.inl (by injection h with h'; exact h'.symm)
      · split at h
        · exact absurd h (by simp)
        · split at h
          · exact Or.inl (by injection h with h'; exact h'.symm)
          · rename_i hlen
            injection h with h'
            refine Or.inr ⟨_, ?_, h'.symm⟩
            intro hnil
            rw [hnil] at hlen
            simp at hlen

theorem strip_cons_head (c : Char) (t : Str) (h : pyWsChar c = false) :
    ∃ t2, strip (c :: t) = c :: t2 := by
  have hl : lstrip (c :: t) = c :: t := List.dropWhile_cons_of_neg (by simp [h])
  show ∃ t2, rstrip (lstrip (c :: t)) = c :: t2
  rw [hl]
  have hpre : rstrip (c :: t) <+: (c :: t) := List.rdropWhile_prefix pyWsChar (c :: t)
  have hne : rstrip (c :: t) ≠ [] := by
    intro hnil
    have hall := List.rdropWhile_eq_nil_iff.mp hnil
    have hc := hall c (List.mem_cons_self c t)
    rw [h] at hc
    exact Bool.false_ne_true hc
  rcases hr : rstrip (c :: t) with _ | ⟨c2, t2⟩
  · exact absurd hr hne
  · obtain ⟨r, hr2⟩ := hpre
    rw [hr] at hr2
    have hc2 : c2 = c := by
      have h3 : c2 :: (t2 ++ r) = c :: t := hr2
      injection h3 with h4 h5
    exact ⟨t2, by rw [hc2]⟩

theorem planHeading_head (x : Str) : ∃ t, planHeading x = '📋' :: t := by
  unfold planHeading
  split
  · exact ⟨_, rfl⟩
  · exact ⟨_, rfl⟩

/-- Claim C9: the execution-plan formatter is idempotent (in the Kleisli
sense over its exception monad): running the formatter on any of its own
successful outputs returns that output unchanged, because every formatted
output starts with the clipboard-glyph heading, which the
already-formatted guard detects. -/
theorem format_plan_idempotent (x : Str) :
    (format_execution_plan_text x).bind format_execution_plan_text =
      format_execution_plan_text x := by
  rcases h : format_execution_plan_text x with e | y
  · rfl
  · show format_execution_plan_text y = Except.ok y
    rcases format_plan_ok_cases x y h with rfl | ⟨items, hne, hy⟩
    · exact h
    · obtain ⟨ht, hht⟩ := planHeading_head x
      have hy2 : ∃ t2, y = '📋' :: t2 := by
        rw [hy, hht]
        cases items with
        | nil => exact absurd rfl hne
        | cons a t =>
          exact ⟨ht ++ (S ("\n") ++ joinWith (S ("\n")) (([] : Str) :: a :: t)),
            by simp [joinWith]⟩
      obtain ⟨t2, hy2⟩ := hy2
      have hne2 : y ≠ [] := by rw [hy2]; simp
      obtain ⟨t3, hstrip⟩ := strip_cons_head '📋' t2 (by decide)
      have hcontains : (strip y).contains '📋' = true := by
        rw [hy2, hstrip]
        simp
      unfold format_execution_plan_text
      rw [if_neg hne2, if_pos (Or.inr (Or.inr hcontains))]

/-! ## Claim C6 - structured-response parser error behavior -/

/-- Claim C6 is contradicted by the code: `json.loads("5")` succeeds with
the integer 5, both pydantic validations fail (caught), and the legacy
membership test `"content" in data` then raises an uncaught TypeError -
the parser does raise instead of falling through to the JSON-stripping
fallback. -/
theorem parse_structured_raises_on_int :
    parse_structured_response (S ("5")) = .error () := rfl

theorem toolMetaStartedStep_flags (s : AccState) (n t : Str) :
    (toolMetaStartedStep s n t).spinnerStopped = s.spinnerStopped ∧
    (toolMetaStartedStep s n t).liveStarted = s.liveStarted := by
  unfold toolMetaStartedStep
  dsimp only
  constructor <;> (split <;> (split <;> rfl))

theorem toolMetaDoneStep_flags (s : AccState) (st n t : Str) :
    (toolMetaDoneStep s st n t).spinnerStopped = s.spinnerStopped ∧
    (toolMetaDoneStep s st n t).liveStarted = s.liveStarted := by
  unfold toolMetaDoneStep
  dsimp only
  constructor <;> (split <;> (split <;> rfl))

theorem toolMetaLane_flags (s : AccState) (m : ToolMeta) (t : Str) :
    (toolMetaLane s m t).spinnerStopped = true ∧
    (toolMetaLane s m t).liveStarted = s.liveStarted := by
  unfold toolMetaLane
  dsimp only
  split
  · have h := toolMetaStartedStep_flags { s with spinnerStopped := true } m.toolName t
    exact ⟨h.1, h.2⟩
  · split
    · have h := toolMetaDoneStep_flags { s with spinnerStopped := true } m.status m.toolName t
      exact ⟨h.1, h.2⟩
    · exact ⟨rfl, rfl⟩

theorem partialResultLane_flags (s : AccState) (t : Str) :
    (partialResultLane s t).spinnerStopped = s.spinnerStopped ∧
    (partialResultLane s t).liveStarted = s.liveStarted := by
  unfold partialResultLane
  split <;> exact ⟨rfl, rfl⟩

theorem completeResultLane_flags (s : AccState) (n t : Str) :
    (completeResultLane s n t).spinnerStopped = s.spinnerStopped ∧
    (completeResultLane s n t).liveStarted = s.liveStarted := by
  unfold completeResultLane
  dsimp only
  split
  · split <;> exact ⟨rfl, rfl⟩
  · exact ⟨rfl, rfl⟩

theorem execPlanLane_cases (s : AccState) (t : Str) :
    execPlanLane s t = .ok s ∨ execPlanLane s t = .error () ∨
    ∃ md, execPlanLane s t =
      .ok { s with executionMarkdown := md, spinnerStopped := true, liveStarted := true } := by
  unfold execPlanLane
  split
  · rcases h : format_execution_plan_text t with e | md
    · right; left; rfl
    · right; right; exact ⟨md, rfl⟩
  · left; rfl

theorem toolStartArtifactLane_flags (s : AccState) (t : Str) :
    (toolStartArtifactLane s t).spinnerStopped = true ∧
    (toolStartArtifactLane s t).liveStarted = s.liveStarted := by
  unfold toolStartArtifactLane
  dsimp only
  split <;> exact ⟨rfl, rfl⟩

theorem toolEndArtifactLane_flags (s : AccState) (t : Str) :
    (toolEndArtifactLane s t).spinnerStopped = s.spinnerStopped ∧
    (toolEndArtifactLane s t).liveStarted = s.liveStarted := by
  unfold toolEndArtifactLane
  dsimp only
  split <;> exact ⟨rfl, rfl⟩

theorem streamingLane_flags (s : AccState) (t : Str) :
    (streamingLane s t).spinnerStopped = true ∧
    (streamingLane s t).liveStarted = true := by
  unfold streamingLane streamingApply
  dsimp only
  split
  · exact ⟨rfl, rfl⟩
  · split <;> exact ⟨rfl, rfl⟩

/-! ## Dispatch and lane lemmas for the event loop -/

theorem stepEvent_partial_lane (s : AccState) (t : Str) :
    stepEvent s (artifactText nmPartial t) = .ok (partialResultLane s t) := rfl

theorem stepEvent_complete_lane (s : AccState) (t : Str) :
    stepEvent s (artifactText nmComplete t) = .ok (completeResultLane s nmComplete t) := rfl

theorem stepEvent_final_lane (s : AccState) (t : Str) :
    stepEvent s (artifactText nmFinal t) = .ok (completeResultLane s nmFinal t) := rfl

theorem stepEvent_streaming_lane (s : AccState) (t : Str) :
    stepEvent s (artifactText nmStreaming t) =
      .ok (if t ≠ [] ∧ nmStreaming ≠ [] then streamingLane s t else s) := by
  unfold stepEvent artifactText
  dsimp only
  rw [if_neg (by decide), if_neg (by decide), if_neg (by decide), if_neg (by decide),
    if_neg (by decide), if_neg (by decide)]
  simp only [List.foldl_cons, List.foldl_nil, List.nil_append]
  split <;> rfl

theorem stepEvent_streaming_ne (s : AccState) (t : Str) (ht : t ≠ []) :
    stepEvent s (artifactText nmStreaming t) = .ok (streamingLane s t) := by
  rw [stepEvent_streaming_lane, if_pos (And.intro ht (by decide))]

theorem partialLane_sets_override (s : AccState) (t : Str) (ht : t ≠ []) :
    (partialResultLane s t).partialResultText = sanitize_stream_text t := by
  unfold partialResultLane
  rw [if_pos ht]

theorem completeLane_sets_override (s : AccState) (t : Str) (ht : t ≠ []) :
    (completeResultLane s nmComplete t).partialResultText = sanitize_stream_text t := by
  unfold completeResultLane
  dsimp only
  rw [if_pos ht, if_pos (Or.inr rfl)]

theorem finalLane_sets_override (s : AccState) (t : Str) (ht : t ≠ []) :
    (completeResultLane s nmFinal t).partialResultText =
      (if s.partialResultText = [] then sanitize_stream_text t else s.partialResultText) := by
  unfold completeResultLane
  dsimp only
  rw [if_pos ht]
  by_cases hp : s.partialResultText = []
  · rw [if_pos (Or.inl hp), if_pos hp]
  · have hc : ¬(s.partialResultText = [] ∨ nmFinal = nmComplete) := by
      rintro (h | h)
      · exact hp h
      · exact absurd h (by decide)
    rw [if_neg hc, if_neg hp]

theorem streamingLane_preserves_override (s : AccState) (t : Str) :
    (streamingLane s t).partialResultText = s.partialResultText := by
  unfold streamingLane streamingApply
  dsimp only
  split
  · rfl
  · split <;> rfl

theorem runEvents_cons (s : AccState) (e : ProtocolEvent) (rest : List ProtocolEvent) :
    runEvents s (e :: rest) =
      match stepEvent s e with
      | .ok s2 => runEvents s2 rest
      | .error u => .error u := rfl

theorem runEvents_ok_step (s s2 : AccState) (e : ProtocolEvent) (rest : List ProtocolEvent)
    (h : stepEvent s e = .ok s2) :
    runEvents s (e :: rest) = runEvents s2 rest := by
  rw [runEvents_cons, h]

theorem runEvents_append (s : AccState) (l1 l2 : List ProtocolEvent) :
    runEvents s (l1 ++ l2) =
      match runEvents s l1 with
      | .ok s2 => runEvents s2 l2
      | .error u => .error u := by
  induction l1 generalizing s with
  | nil => rfl
  | cons e rest ih =>
    rw [List.cons_append, runEvents_cons, runEvents_cons]
    cases hstep : stepEvent s e with
    | ok s2 => exact ih s2
    | error u => rfl

theorem stepEvent_flags (s : AccState) (e : ProtocolEvent) :
    onOk (stepEvent s e) (fun s2 =>
      (s.spinnerStopped = true → s2.spinnerStopped = true) ∧
      (s.liveStarted = true → s2.liveStarted = true) ∧
      ((s.liveStarted = true → s.spinnerStopped = true) →
        (s2.liveStarted = true → s2.spinnerStopped = true))) := by
  cases e with
  | statusEv ph text m =>
    cases m with
    | none => exact ⟨id, id, fun hi => hi⟩
    | some meta =>
      have h := toolMetaLane_flags s meta text
      exact ⟨fun _ => h.1, fun hl => by rw [h.2]; exact hl, fun _ _ => h.1⟩
  | artifactEv name parts =>
    unfold stepEvent
    dsimp only
    split
    · have h := partialResultLane_flags s (parts.foldl (· ++ ·) [])
      exact ⟨fun hs => by rw [h.1]; exact hs, fun hl => by rw [h.2]; exact hl,
        fun hi hl => by rw [h.1]; exact hi (by rw [← h.2]; exact hl)⟩
    · split
      · have h := completeResultLane_flags s name (parts.foldl (· ++ ·) [])
        exact ⟨fun hs => by rw [h.1]; exact hs, fun hl => by rw [h.2]; exact hl,
          fun hi hl => by rw [h.1]; exact hi (by rw [← h.2]; exact hl)⟩
      · split
        · rcases execPlanLane_cases s (parts.foldl (· ++ ·) []) with h | h | ⟨md, h⟩
          · rw [h]; exact ⟨id, id, fun hi => hi⟩
          · rw [h]; trivial
          · rw [h]; exact ⟨fun _ => rfl, fun _ => rfl, fun _ _ => rfl⟩
        · split
          · exact ⟨id, id, fun hi => hi⟩
          · split
            · split
              · have h := toolStartArtifactLane_flags s (parts.foldl (· ++ ·) [])
                exact ⟨fun _ => h.1, fun hl => by rw [h.2]; exact hl, fun _ _ => h.1⟩
              · exact ⟨id, id, fun hi => hi⟩
            · split
              · split
                · have h := toolEndArtifactLane_flags s (parts.foldl (· ++ ·) [])
                  exact ⟨fun hs => by rw [h.1]; exact hs, fun hl => by rw [h.2]; exact hl,
                    fun hi hl => by rw [h.1]; exact hi (by rw [← h.2]; exact hl)⟩
                · exact ⟨id, id, fun hi => hi⟩
              · split
                · have h := streamingLane_flags s (parts.foldl (· ++ ·) [])
                  exact ⟨fun _ => h.1, fun _ => h.2, fun _ _ => h.1⟩
                · exact ⟨id, id, fun hi => hi⟩

theorem runEvents_inv (evs : List ProtocolEvent) :
    ∀ s : AccState, (s.liveStarted = true → s.spinnerStopped = true) →
      onOk (runEvents s evs) (fun st => st.liveStarted = true → st.spinnerStopped = true) := by
  induction evs with
  | nil => intro s hs; exact hs
  | cons e rest ih =>
    intro s hs
    have hf := stepEvent_flags s e
    rw [runEvents_cons]
    cases hstep : stepEvent s e with
    | error u => trivial
    | ok s2 =>
      rw [hstep] at hf
      exact ih s2 (hf.2.2 hs)

/-- Claim C8: in every reachable state of one turn, at most one of the
spinner and the live dashboard is active - the dashboard flag implies the
spinner-stopped flag - and no step ever resets either flag once set. -/
theorem spinner_dashboard_invariant (evs : List ProtocolEvent) (e : ProtocolEvent) :
    onOk (runEvents initialAccState evs) (fun st =>
      (st.liveStarted = true → st.spinnerStopped = true) ∧
      onOk (stepEvent st e) (fun st2 =>
        (st.spinnerStopped = true → st2.spinnerStopped = true) ∧
        (st.liveStarted = true → st2.liveStarted = true))) := by
  have hinv := runEvents_inv evs initialAccState (fun h => absurd h (by decide))
  cases hrun : runEvents initialAccState evs with
  | error u => trivial
  | ok st =>
    rw [hrun] at hinv
    refine ⟨hinv, ?_⟩
    have hf := stepEvent_flags st e
    cases hstep : stepEvent st e with
    | error u => trivial
    | ok st2 =>
      rw [hstep] at hf
      exact ⟨hf.1, hf.2.1⟩

theorem runEvents_stream_override :
    ∀ (ss : List ProtocolEvent), (∀ e ∈ ss, ∃ u, e = artifactText nmStreaming u) →
    ∀ s : AccState, ∃ s2, runEvents s ss = .ok s2 ∧
      s2.partialResultText = s.partialResultText := by
  intro ss
  induction ss with
  | nil => intro _ s; exact ⟨s, rfl, rfl⟩
  | cons e rest ih =>
    intro hss s
    obtain ⟨u, rfl⟩ := hss e (List.mem_cons_self e rest)
    obtain ⟨s2, hrun, hp⟩ := ih (fun e2 he2 => hss e2 (List.mem_cons_of_mem _ he2))
      (if u ≠ [] ∧ nmStreaming ≠ [] then streamingLane s u else s)
    refine ⟨s2, ?_, ?_⟩
    · rw [runEvents_ok_step _ _ _ _ (stepEvent_streaming_lane s u)]
      exact hrun
    · rw [hp]
      split
      · exact streamingLane_preserves_override s u
      · rfl

theorem mergeStreamBuffer_nil (c : Str) : mergeStreamBuffer [] c = c := by
  simp [mergeStreamBuffer, strip, lstrip, rstrip]

theorem streamingLane_init (r : Str) (hr : sanitize_stream_text r ≠ []) :
    (streamingLane initialAccState r).responseStreamBuffer = sanitize_stream_text r ∧
    (streamingLane initialAccState r).lastEventSignature = sanitize_stream_text r := by
  unfold streamingLane streamingApply
  dsimp only
  rw [if_neg hr, sanitize_stripped r]
  have hcond : ¬(sanitize_stream_text r =
      ({ initialAccState with spinnerStopped := true, liveStarted := true } : AccState).lastEventSignature) := by
    intro h
    exact hr h
  rw [if_neg hcond]
  constructor
  · show mergeStreamBuffer initialAccState.responseStreamBuffer (sanitize_stream_text r) = _
    exact mergeStreamBuffer_nil _
  · rfl

theorem streamingLane_dup (s : AccState) (r t : Str)
    (hr : sanitize_stream_text r = t) (ht : t ≠ [])
    (hsig : s.lastEventSignature = t) :
    (streamingLane s r).responseStreamBuffer = s.responseStreamBuffer ∧
    (streamingLane s r).lastEventSignature = s.lastEventSignature := by
  unfold streamingLane streamingApply
  dsimp only
  rw [hr, if_neg ht]
  have hstript : strip t = t := by rw [← hr]; exact sanitize_stripped r
  have hcond : strip t =
      ({ s with spinnerStopped := true, liveStarted := true } : AccState).lastEventSignature := by
    show strip t = s.lastEventSignature
    rw [hstript, hsig]
  rw [if_pos hcond]
  exact ⟨rfl, rfl⟩

theorem countOcc_zero_of_short (pat : Str) :
    ∀ s : Str, s.length < pat.length → countOcc pat s = 0 := by
  intro s
  induction s with
  | nil => intro _; rfl
  | cons c rest ih =>
    intro hlen
    unfold countOcc
    rw [if_neg, ih (by simp only [List.length_cons] at hlen; omega)]
    intro hpre
    have hle := (List.isPrefixOf_iff_prefix.mp hpre).length_le
    simp only [List.length_cons] at hle hlen
    omega

theorem countOcc_self (t : Str) (ht : t ≠ []) : countOcc t t = 1 := by
  cases t with
  | nil => exact absurd rfl ht
  | cons c rest =>
    unfold countOcc
    rw [if_pos (List.isPrefixOf_iff_prefix.mpr (List.prefix_refl _)),
      countOcc_zero_of_short _ rest (by simp)]

theorem streaming_dedup_core (t : Str) (ht : t ≠ []) :
    ∀ (raws : List Str), (∀ r ∈ raws, r ≠ [] ∧ sanitize_stream_text r = t) →
    ∀ s : AccState, s.responseStreamBuffer = t → s.lastEventSignature = t →
    ∃ st, runEvents s (raws.map (fun r => artifactText nmStreaming r)) = .ok st ∧
      st.responseStreamBuffer = t ∧ st.lastEventSignature = t := by
  intro raws
  induction raws with
  | nil => intro _ s hb hsig; exact ⟨s, rfl, hb, hsig⟩
  | cons r rest ih =>
    intro hall s hb hsig
    obtain ⟨hrne, hrs⟩ := hall r (List.mem_cons_self r rest)
    obtain ⟨hbuf, hsig2⟩ := streamingLane_dup s r t hrs ht hsig
    obtain ⟨st, hrun, hbt, hst⟩ := ih (fun x hx => hall x (List.mem_cons_of_mem _ hx))
      (streamingLane s r) (by rw [hbuf]; exact hb) (by rw [hsig2]; exact hsig)
    refine ⟨st, ?_, hbt, hst⟩
    rw [List.map_cons, runEvents_ok_step _ _ _ _ (stepEvent_streaming_ne s r hrne)]
    exact hrun

/-- Claim C3: a non-empty run of `streaming_result` events whose sanitized
texts are all the same non-empty string `t` leaves the response buffer
equal to `t` - the text appears exactly once; the repeats are skipped by
the last-event-signature deduplication. -/
theorem streaming_fragments_once (t : Str) (raws : List Str) (h0 : raws ≠ [])
    (hall : ∀ r ∈ raws, r ≠ [] ∧ sanitize_stream_text r = t) (ht : t ≠ []) :
    ∃ st, runEvents initialAccState (raws.map (fun r => artifactText nmStreaming r)) = .ok st ∧
      st.responseStreamBuffer = t ∧ countOcc t st.responseStreamBuffer = 1 := by
  obtain ⟨r0, rest, rfl⟩ := List.exists_cons_of_ne_nil h0
  obtain ⟨hr0ne, hr0⟩ := hall r0 (List.mem_cons_self r0 rest)
  have hsr : sanitize_stream_text r0 ≠ [] := by rw [hr0]; exact ht
  obtain ⟨hbuf, hsig⟩ := streamingLane_init r0 hsr
  obtain ⟨st, hrun, hbt, hsigt⟩ := streaming_dedup_core t ht rest
    (fun x hx => hall x (List.mem_cons_of_mem _ hx)) (streamingLane initialAccState r0)
    (by rw [hbuf, hr0]) (by rw [hsig, hr0])
  refine ⟨st, ?_, hbt, by rw [hbt]; exact countOcc_self t ht⟩
  rw [List.map_cons, runEvents_ok_step _ _ _ _ (stepEvent_streaming_ne initialAccState r0 hr0ne)]
  exact hrun

theorem streaming_fragments_once_witness :
    ([S ("Hi"), S ("Hi")] ≠ ([] : List Str)) ∧
    (∀ r ∈ [S ("Hi"), S ("Hi")], r ≠ [] ∧ sanitize_stream_text r = S ("Hi")) ∧
    S ("Hi") ≠ ([] : Str) ∧
    ∃ st, runEvents initialAccState
        ([S ("Hi"), S ("Hi")].map (fun r => artifactText nmStreaming r)) = .ok st ∧
      st.responseStreamBuffer = S ("Hi") ∧
      countOcc (S ("Hi")) st.responseStreamBuffer = 1 :=
  ⟨by decide, by decide, by decide,
    streaming_fragments_once (S ("Hi")) [S ("Hi"), S ("Hi")] (by decide) (by decide) (by decide)⟩

/-- Claim C1 (amended): a `complete_result` artifact with non-empty
sanitized text arriving among any amount of `streaming_result` traffic
wins as the final displayed text, unless the streaming buffer contains
the `UserInputMetaData:` marker - in which case the (sanitized, non-empty)
streaming buffer is chosen regardless of whether the override also
contains the marker. -/
theorem complete_result_override (ss ss2 : List ProtocolEvent) (t : Str)
    (hss : ∀ e ∈ ss, ∃ u, e = artifactText nmStreaming u)
    (hss2 : ∀ e ∈ ss2, ∃ u, e = artifactText nmStreaming u)
    (ht : sanitize_stream_text t ≠ []) :
    ∃ st, runEvents initialAccState (ss ++ artifactText nmComplete t :: ss2) = .ok st ∧
      st.partialResultText = sanitize_stream_text t ∧
      (bufferHasUim st = false → finalizeTurn st = sanitize_stream_text t) ∧
      (bufferHasUim st = true → sanitize_stream_text st.responseStreamBuffer ≠ [] →
        finalizeTurn st = sanitize_stream_text st.responseStreamBuffer) := by
  have htne : t ≠ [] := by
    intro h
    rw [h] at ht
    exact ht rfl
  obtain ⟨s1, hrun1, hp1⟩ := runEvents_stream_override ss hss initialAccState
  obtain ⟨s3, hrun3, hp3⟩ := runEvents_stream_override ss2 hss2
    (completeResultLane s1 nmComplete t)
  have hpart : s3.partialResultText = sanitize_stream_text t := by
    rw [hp3]
    exact completeLane_sets_override s1 t htne
  refine ⟨s3, ?_, hpart, ?_, ?_⟩
  · rw [runEvents_append, hrun1]
    show runEvents s1 (artifactText nmComplete t :: ss2) = .ok s3
    rw [runEvents_ok_step _ _ _ _ (stepEvent_complete_lane s1 t)]
    exact hrun3
  · intro hb
    unfold finalizeTurn
    rw [if_neg (by rw [hb]; exact Bool.false_ne_true),
      if_pos (show s3.partialResultText ≠ [] by rw [hpart]; exact ht)]
    exact hpart
  · intro hb hsb
    unfold finalizeTurn
    rw [if_pos hb, if_pos hsb]

theorem complete_result_override_witness :
    (∀ e ∈ [artifactText nmStreaming (S ("Hel"))], ∃ u, e = artifactText nmStreaming u) ∧
    sanitize_stream_text (S ("Hello!")) ≠ [] ∧
    ∃ st, runEvents initialAccState
        ([artifactText nmStreaming (S ("Hel"))] ++
          artifactText nmComplete (S ("Hello!")) :: []) = .ok st ∧
      st.partialResultText = sanitize_stream_text (S ("Hello!")) ∧
      (bufferHasUim st = false → finalizeTurn st = sanitize_stream_text (S ("Hello!"))) ∧
      (bufferHasUim st = true → sanitize_stream_text st.responseStreamBuffer ≠ [] →
        finalizeTurn st = sanitize_stream_text st.responseStreamBuffer) :=
  ⟨fun e he => ⟨S ("Hel"), List.mem_singleton.mp he⟩, by decide,
    complete_result_override [artifactText nmStreaming (S ("Hel"))] [] (S ("Hello!"))
      (fun e he => ⟨S ("Hel"), List.mem_singleton.mp he⟩)
      (fun e he => absurd he (List.not_mem_nil e))
      (by decide)⟩

/-- Counterexample to claim C1 as stated: both the streaming buffer and
the stored override contain the `UserInputMetaData:` marker, so per the
claim the override should win, but the code still prefers the sanitized
streaming buffer. -/
theorem uim_override_counterexample :
    containsSubstr uimMarker (bufferAfterRun
      [artifactText nmStreaming (S ("UserInputMetaData: X")),
       artifactText nmComplete (S ("UserInputMetaData: Y"))]) = true ∧
    containsSubstr uimMarker (partialAfterRun
      [artifactText nmStreaming (S ("UserInputMetaData: X")),
       artifactText nmComplete (S ("UserInputMetaData: Y"))]) = true ∧
    finalAfterRun
      [artifactText nmStreaming (S ("UserInputMetaData: X")),
       artifactText nmComplete (S ("UserInputMetaData: Y"))] =
      sanitize_stream_text (bufferAfterRun
        [artifactText nmStreaming (S ("UserInputMetaData: X")),
         artifactText nmComplete (S ("UserInputMetaData: Y"))]) ∧
    finalAfterRun
      [artifactText nmStreaming (S ("UserInputMetaData: X")),
       artifactText nmComplete (S ("UserInputMetaData: Y"))] ≠
      partialAfterRun
        [artifactText nmStreaming (S ("UserInputMetaData: X")),
         artifactText nmComplete (S ("UserInputMetaData: Y"))] := by
  refine ⟨by decide, by decide, by decide, by decide⟩

/-- Claim C2 (amended): the stored final-answer override is last-writer
wins under kind rules - `partial_result` and `complete_result` always
overwrite it, while `final_result` only fills an empty override; hence
with both kinds present the override is the complete_result text only
when the complete_result arrives after the partial_result. -/
theorem override_last_writer (tp tc : Str) (hp : tp ≠ []) (hc : tc ≠ [])
    (hsp : sanitize_stream_text tp ≠ []) :
    partialAfterRun [artifactText nmPartial tp, artifactText nmComplete tc] =
      sanitize_stream_text tc ∧
    partialAfterRun [artifactText nmComplete tc, artifactText nmPartial tp] =
      sanitize_stream_text tp ∧
    partialAfterRun [artifactText nmPartial tp, artifactText nmFinal tc] =
      sanitize_stream_text tp ∧
    partialAfterRun [artifactText nmFinal tc, artifactText nmPartial tp] =
      sanitize_stream_text tp := by
  refine ⟨?_, ?_, ?_, ?_⟩
  · unfold partialAfterRun
    rw [runEvents_ok_step _ _ _ _ (stepEvent_partial_lane initialAccState tp),
      runEvents_ok_step _ _ _ _ (stepEvent_complete_lane _ tc)]
    show (completeResultLane (partialResultLane initialAccState tp) nmComplete tc).partialResultText = _
    exact completeLane_sets_override _ tc hc
  · unfold partialAfterRun
    rw [runEvents_ok_step _ _ _ _ (stepEvent_complete_lane initialAccState tc),
      runEvents_ok_step _ _ _ _ (stepEvent_partial_lane _ tp)]
    show (partialResultLane (completeResultLane initialAccState nmComplete tc) tp).partialResultText = _
    exact partialLane_sets_override _ tp hp
  · unfold partialAfterRun
    rw [runEvents_ok_step _ _ _ _ (stepEvent_partial_lane initialAccState tp),
      runEvents_ok_step _ _ _ _ (stepEvent_final_lane _ tc)]
    show (completeResultLane (partialResultLane initialAccState tp) nmFinal tc).partialResultText = _
    rw [finalLane_sets_override _ tc hc,
      partialLane_sets_override initialAccState tp hp, if_neg hsp]
  · unfold partialAfterRun
    rw [runEvents_ok_step _ _ _ _ (stepEvent_final_lane initialAccState tc),
      runEvents_ok_step _ _ _ _ (stepEvent_partial_lane _ tp)]
    show (partialResultLane (completeResultLane initialAccState nmFinal tc) tp).partialResultText = _
    exact partialLane_sets_override _ tp hp

theorem override_last_writer_witness :
    (S ("P") ≠ ([] : Str)) ∧ (S ("C") ≠ ([] : Str)) ∧
    sanitize_stream_text (S ("P")) ≠ [] ∧
    (partialAfterRun [artifactText nmPartial (S ("P")), artifactText nmComplete (S ("C"))] =
      sanitize_stream_text (S ("C")) ∧
    partialAfterRun [artifactText nmComplete (S ("C")), artifactText nmPartial (S ("P"))] =
      sanitize_stream_text (S ("P")) ∧
    partialAfterRun [artifactText nmPartial (S ("P")), artifactText nmFinal (S ("C"))] =
      sanitize_stream_text (S ("P")) ∧
    partialAfterRun [artifactText nmFinal (S ("C")), artifactText nmPartial (S ("P"))] =
      sanitize_stream_text (S ("P"))) :=
  ⟨by decide, by decide, by decide,
    override_last_writer (S ("P")) (S ("C")) (by decide) (by decide) (by decide)⟩

/-- Counterexample to claim C2 as stated: a `partial_result` arriving after
a `complete_result` overwrites the stored override, so the end-of-turn
override is the partial text, not the complete text. -/
theorem override_rank_counterexample :
    partialAfterRun [artifactText nmComplete (S ("C")), artifactText nmPartial (S ("P"))] =
      S ("P") ∧
    S ("P") ≠ sanitize_stream_text (S ("C")) := by
  refine ⟨by decide, by decide⟩
